import Mathlib

/-!
Shallow embedding of `rnote-engine/src/compose/textured.rs`.

Modelling conventions:
* `f64` scalars are modelled as `ℚ`; floating-point literal constants such as
  `0.1`, `0.8`, `1.25`, `0.3` are modelled by the exact rationals they denote
  in the source text.
* The `rand` / `rand_distr` crates are external collaborators.  A generator is
  modelled as a position into four deterministic draw streams: a standard
  uniform stream (values in `[0, 1)`), a standard normal stream, a unit-rate
  exponential stream (nonnegative values) and a boolean stream.  Each
  distribution draw consumes one position, matching the fact that a draw
  advances the generator state.  The crate semantics are:
  `Uniform::from(lo..hi)` samples `lo + (hi - lo) * u` with `u ∈ [0,1)`,
  `Normal::new(mean, sd)` fails exactly when `sd` is negative (or NaN, which
  has no counterpart in `ℚ`), `Exp::new(lambda)` fails exactly when
  `lambda ≤ 0`, and `Exp(lambda)` samples `e / lambda` with `e ≥ 0`.
* Rust panics (the `unwrap` calls) are modelled by `Option`: `none` is a
  panic, `some` a normal return.
-/

namespace Rnote

/-- Rust `f64::round`: round to the nearest integer, ties away from zero. -/
def roundRust (x : ℚ) : ℤ := if 0 ≤ x then ⌊x + 1/2⌋ else ⌈x - 1/2⌉

/-- Abstract deterministic pseudo-random generator: a cursor `pos` into fixed
draw streams.  A concrete `Pcg64` state corresponds to one value of this
structure; advancing the state is incrementing `pos`. -/
structure Rng where
  pos : Nat
  unif : Nat → ℚ
  norm : Nat → ℚ
  expo : Nat → ℚ
  coin : Nat → Bool

/-- Advance the generator by one draw. -/
def Rng.advance (r : Rng) : Rng := { r with pos := r.pos + 1 }

/-- Well-formedness of the draw streams: standard uniform draws lie in
`[0, 1)` and unit-exponential draws are nonnegative.  This is exactly what
the `rand` crate guarantees for those draws. -/
def Rng.Wf (r : Rng) : Prop :=
  (∀ i, 0 ≤ r.unif i ∧ r.unif i < 1) ∧ (∀ i, 0 ≤ r.expo i)

theorem Rng.Wf.advance {r : Rng} (h : r.Wf) : r.advance.Wf := h

/-- One standard-uniform draw. -/
def Rng.nextUnif (r : Rng) : ℚ × Rng := (r.unif r.pos, r.advance)

/-- One standard-normal draw. -/
def Rng.nextNorm (r : Rng) : ℚ × Rng := (r.norm r.pos, r.advance)

/-- One unit-rate exponential draw. -/
def Rng.nextExp (r : Rng) : ℚ × Rng := (r.expo r.pos, r.advance)

/-- One `Standard` boolean draw. -/
def Rng.nextCoin (r : Rng) : Bool × Rng := (r.coin r.pos, r.advance)

/-- `rand_distr::Uniform::from(lo..hi).sample(rng)`. -/
def uniformSample (lo hi : ℚ) (r : Rng) : ℚ × Rng :=
  let p := r.nextUnif
  (lo + (hi - lo) * p.1, p.2)

/-- `rand_distr::Normal::new(mean, std_dev)`: fails exactly when the standard
deviation is negative. -/
def Normal.new (mean std_dev : ℚ) : Option (ℚ × ℚ) :=
  if std_dev < 0 then none else some (mean, std_dev)

/-- Sampling a constructed `Normal` distribution. -/
def normalSample (d : ℚ × ℚ) (r : Rng) : ℚ × Rng :=
  let p := r.nextNorm
  (d.1 + d.2 * p.1, p.2)

/-- `rand_distr::Exp::new(lambda)`: fails exactly when the rate is
nonpositive. -/
def Exp.new (lambda : ℚ) : Option ℚ :=
  if lambda ≤ 0 then none else some lambda

/-- Sampling a constructed `Exp` distribution. -/
def expSample (lambda : ℚ) (r : Rng) : ℚ × Rng :=
  let p := r.nextExp
  (p.1 / lambda, p.2)

/-- The distribution for the spread of dots across the width of the textured
stroke (`TexturedDotsDistribution` in the source). -/
inductive TexturedDotsDistribution where
  | Uniform
  | Normal
  | Exponential
  | ReverseExponential
deriving DecidableEq, Repr

/-- `impl Default for TexturedDotsDistribution`. -/
def TexturedDotsDistribution.default : TexturedDotsDistribution := .Normal

/-- The `match self` expression of `sample_for_range_symmetrical_clipped`
producing the raw (pre-clipping) sample, option-valued because the `unwrap`
calls on `Normal::new` / `Exp::new` may panic. -/
def rawSample (kind : TexturedDotsDistribution) (rng : Rng) (lo hi : ℚ) :
    Option (ℚ × Rng) :=
  match kind with
  | .Uniform => some (uniformSample lo hi rng)
  | .Normal =>
    let mean := (hi + lo) / 2
    let std_dev := ((hi - lo) / 2) / 3
    match Normal.new mean std_dev with
    | none => none
    | some d => some (normalSample d rng)
  | .Exponential =>
    let mid := (hi + lo) / 2
    let width := (hi - lo) / 4
    let lambda : ℚ := 1
    let p := rng.nextCoin
    let sign : ℚ := if p.1 then 1 else -1
    match Exp.new lambda with
    | none => none
    | some l =>
      let q := expSample l p.2
      some (mid + sign * width * q.1, q.2)
  | .ReverseExponential =>
    let width := (hi - lo) / 4
    let lambda : ℚ := 1
    let p := rng.nextCoin
    let sign : ℚ := if p.1 then 1 else -1
    let offset := if p.1 then lo else hi
    match Exp.new lambda with
    | none => none
    | some l =>
      let q := expSample l p.2
      some (offset + sign * width * q.1, q.2)

/-- `TexturedDotsDistribution::sample_for_range_symmetrical_clipped`: raw
sample, then the uniform fallback when the sample is out of the half-open
range (`Range::<f64>::contains` is `lo ≤ s ∧ s < hi`). -/
def sample_for_range_symmetrical_clipped (kind : TexturedDotsDistribution)
    (rng : Rng) (lo hi : ℚ) : Option (ℚ × Rng) :=
  match rawSample kind rng lo hi with
  | none => none
  | some s =>
    if lo ≤ s.1 ∧ s.1 < hi then some s
    else some (uniformSample lo hi s.2)

/-- A color (`compose::color::Color`): rgba components. -/
structure Color where
  r : ℚ
  g : ℚ
  b : ℚ
  a : ℚ
deriving DecidableEq, Repr

/-- A line segment: two points in 2-D space. -/
structure Line where
  start : ℚ × ℚ
  «end» : ℚ × ℚ
deriving DecidableEq, Repr

/-- The Options of how a textured shape should look (`TexturedOptions`). -/
structure TexturedOptions where
  seed : Option Nat
  width : ℚ
  stroke_color : Option Color
  density : ℚ
  radii : ℚ × ℚ
  distribution : TexturedDotsDistribution

/-- `TexturedOptions::WIDTH_DEFAULT`. -/
def TexturedOptions.WIDTH_DEFAULT : ℚ := 1

/-- `TexturedOptions::COLOR_DEFAULT`. -/
def TexturedOptions.COLOR_DEFAULT : Color := { r := 0, g := 0, b := 0, a := 1 }

/-- `TexturedOptions::DENSITY_DEFAULT`. -/
def TexturedOptions.DENSITY_DEFAULT : ℚ := 5

/-- `TexturedOptions::RADII_DEFAULT` (`na::vector![2.0, 0.3]`). -/
def TexturedOptions.RADII_DEFAULT : ℚ × ℚ := (2, 3/10)

/-- `impl Default for TexturedOptions`. -/
def TexturedOptions.default : TexturedOptions :=
  { seed := none
    width := TexturedOptions.WIDTH_DEFAULT
    density := TexturedOptions.DENSITY_DEFAULT
    stroke_color := some TexturedOptions.COLOR_DEFAULT
    radii := TexturedOptions.RADII_DEFAULT
    distribution := TexturedDotsDistribution.default }

/-- Environment of external scalar functions the compositor uses.  These come
from code outside this module (`nalgebra`, the `color` module) or are
irrational constants, so they are parameters of the embedding:
* `lenFn` is the Euclidean length of a line (`vec.magnitude()`), irrational
  in general, hence a parameter constrained by hypotheses where its value
  matters;
* `angleFn` is `na::Rotation2::rotation_between(&x_axis, &vec).angle()`;
* `pi8` stands for the constant `std::f64::consts::FRAC_PI_8`;
* `to_css_color` is `Color::to_css_color` from the `color` module. -/
structure Env where
  lenFn : Line → ℚ
  angleFn : ℚ × ℚ → ℚ
  pi8 : ℚ
  to_css_color : Color → String

/-- The oriented rectangle envelope (`Rectangle { cuboid, transform }`):
half-extents of the cuboid, and the affine local-to-world transform. -/
structure Rect where
  half_extents : ℚ × ℚ
  transform : ℚ × ℚ → ℚ × ℚ

/-- Modelled from the spec: `Line::line_w_width_to_rect` lives in the
`curves` module, which is not part of this source tree.  The spec says:
half-extent along the cross-axis is `width / 2`, half-extent along the line
axis is half the line's own length, and the transform rotates the local
frame so its x-axis aligns with `end - start` and translates the origin to
the line's midpoint. -/
def Line.line_w_width_to_rect (env : Env) (line : Line) (width : ℚ) : Rect :=
  let len := env.lenFn line
  let dx := line.«end».1 - line.start.1
  let dy := line.«end».2 - line.start.2
  let mx := (line.start.1 + line.«end».1) / 2
  let my := (line.start.2 + line.«end».2) / 2
  { half_extents := (len / 2, width / 2)
    transform := fun p =>
      (mx + (dx / len) * p.1 - (dy / len) * p.2,
       my + (dy / len) * p.1 + (dx / len) * p.2) }

/-- Modelled from the spec: `compose::new_rng_default_pcg64` lives in the
parent `compose` module, not in this source tree.  The spec says: initialize
a deterministic generator from `options.seed`; an absent seed makes the
generator self-seed from an entropy source each call.  `seedFn` is the
deterministic `Pcg64` seeding map, `entropy` the entropy-seeded generator of
this call. -/
def new_rng_default_pcg64 (seedFn : Nat → Rng) (entropy : Rng)
    (seed : Option Nat) : Rng :=
  match seed with
  | some s => seedFn s
  | none => entropy

/-- One emitted ellipse primitive: center, rotation angle (radians; the
serializer applies `to_degrees`), radii, fill attribute. -/
structure Dot where
  cx : ℚ
  cy : ℚ
  rot : ℚ
  rx : ℚ
  ry : ℚ
  fill : String
deriving DecidableEq, Repr

/-- The envelope area computed by `compose_line`:
`4.0 * rect.cuboid.half_extents[0] * rect.cuboid.half_extents[1]`. -/
def texturedArea (env : Env) (line : Line) (width : ℚ) : ℚ :=
  let rect := line.line_w_width_to_rect env width
  4 * rect.half_extents.1 * rect.half_extents.2

/-- The body of the `for _ in 0..n_dots` loop of `compose_line`: sample the
local x uniformly, the local y with the configured distribution, transform to
world coordinates, sample rotation jitter and radii, resolve the fill. -/
def composeDotStep (env : Env) (rect : Rect) (vec : ℚ × ℚ)
    (range_x range_y range_rot range_rx range_ry : ℚ × ℚ)
    (options : TexturedOptions) (rng : Rng) : Option (Dot × Rng) :=
  let px := uniformSample range_x.1 range_x.2 rng
  match sample_for_range_symmetrical_clipped options.distribution px.2
      range_y.1 range_y.2 with
  | none => none
  | some py =>
    let pos := rect.transform (px.1, py.1)
    let pr := uniformSample range_rot.1 range_rot.2 py.2
    let rotation_angle := env.angleFn vec + pr.1
    let prx := uniformSample range_rx.1 range_rx.2 pr.2
    let pry := uniformSample range_ry.1 range_ry.2 prx.2
    let fill := match options.stroke_color with
      | none => ""
      | some color => env.to_css_color color
    some ({ cx := pos.1, cy := pos.2, rot := rotation_angle,
            rx := prx.1, ry := pry.1, fill := fill }, pry.2)

/-- The dot-generation loop of `compose_line`, threading the generator and
appending dots in sampling order. -/
def composeDots (env : Env) (rect : Rect) (vec : ℚ × ℚ)
    (range_x range_y range_rot range_rx range_ry : ℚ × ℚ)
    (options : TexturedOptions) : Nat → Rng → Option (List Dot)
  | 0, _ => some []
  | Nat.succ n, rng =>
    match composeDotStep env rect vec range_x range_y range_rot range_rx
        range_ry options rng with
    | none => none
    | some dr =>
      match composeDots env rect vec range_x range_y range_rot range_rx
          range_ry options n dr.2 with
      | none => none
      | some ds => some (dr.1 :: ds)

/-- `compose_line(line, width, options)`.  The result is the ordered list of
ellipse primitives of the output group; `none` models a panic. -/
def compose_line (env : Env) (seedFn : Nat → Rng) (entropy : Rng)
    (line : Line) (width : ℚ) (options : TexturedOptions) :
    Option (List Dot) :=
  let rng := new_rng_default_pcg64 seedFn entropy options.seed
  let rect := line.line_w_width_to_rect env width
  let area := texturedArea env line width
  let range_x := (-rect.half_extents.1, rect.half_extents.1)
  let range_y := (-rect.half_extents.2, rect.half_extents.2)
  let range_dots_rot := (-env.pi8, env.pi8)
  let range_dots_rx := (options.radii.1 * (8/10), options.radii.1 * (125/100))
  let range_dots_ry := (options.radii.2 * (8/10), options.radii.2 * (125/100))
  let n_dots := roundRust (area * (1/10) * options.density)
  let vec := (line.«end».1 - line.start.1, line.«end».2 - line.start.2)
  composeDots env rect vec range_x range_y range_dots_rot range_dots_rx
    range_dots_ry options n_dots.toNat rng

/-- ReverseExponential sample value as the spec's words describe it: pick one
of the two range edges as an anchor (`anchorAtLo` is the 50/50 coin), scale a
unit-rate exponential magnitude by `(hi - lo) / 4`, and add it with the sign
pointing inward from the chosen edge. -/
def revExpSpec (lo hi : ℚ) (anchorAtLo : Bool) (e : ℚ) : ℚ :=
  if anchorAtLo then lo + ((hi - lo) / 4) * e else hi - ((hi - lo) / 4) * e

/-! ## Concrete fixtures used to instantiate the theorems -/

/-- A concrete environment: a length-10 line, direction angle 0, a rational
stand-in for `π/8`, a fixed CSS color string. -/
def envW : Env :=
  { lenFn := fun _ => 10, angleFn := fun _ => 0, pi8 := 2/5,
    to_css_color := fun _ => "black" }

/-- A concrete well-formed generator state. -/
def rngW : Rng :=
  { pos := 0, unif := fun _ => 1/2, norm := fun _ => 0,
    expo := fun _ => 1, coin := fun _ => true }

/-- A second, different concrete generator state (a distinct entropy
source). -/
def rngW2 : Rng :=
  { pos := 0, unif := fun _ => 1/3, norm := fun _ => 1,
    expo := fun _ => 2, coin := fun _ => false }

/-- A concrete `Pcg64` seeding map. -/
def seedFnW : Nat → Rng := fun _ => rngW

/-- The spec's end-to-end scenario line, from `(0,0)` to `(10,0)`. -/
def lineW : Line := { start := (0, 0), «end» := (10, 0) }

/-- The envelope of `lineW` at width 2. -/
def rectW : Rect := lineW.line_w_width_to_rect envW 2

/-- The direction vector of `lineW`. -/
def vecW : ℚ × ℚ := (10, 0)

/-- Default options with a fixed seed. -/
def optsSeeded : TexturedOptions :=
  { TexturedOptions.default with seed := some 42 }

/-- Default options with zero density. -/
def optsZeroDen : TexturedOptions :=
  { TexturedOptions.default with density := 0 }

/-- Default options with a negative density. -/
def optsNegDen : TexturedOptions :=
  { TexturedOptions.default with density := -1 }

/-- Default options with no stroke color. -/
def optsNoColor : TexturedOptions :=
  { TexturedOptions.default with stroke_color := none }

/-! ## Helper lemmas -/

theorem rngW_wf : rngW.Wf :=
  ⟨fun _ => ⟨by norm_num [rngW], by norm_num [rngW]⟩,
   fun _ => by norm_num [rngW]⟩

theorem uniformSample_mem (lo hi : ℚ) (r : Rng) (hr : r.Wf) (h : lo < hi) :
    lo ≤ (uniformSample lo hi r).1 ∧ (uniformSample lo hi r).1 < hi := by
  obtain ⟨hu, -⟩ := hr
  obtain ⟨h0, h1⟩ := hu r.pos
  constructor
  · have hm : 0 ≤ (hi - lo) * r.unif r.pos :=
      mul_nonneg (by linarith) h0
    simp only [uniformSample, Rng.nextUnif]
    linarith
  · have hm : (hi - lo) * r.unif r.pos < (hi - lo) * 1 :=
      mul_lt_mul_of_pos_left h1 (by linarith)
    simp only [uniformSample, Rng.nextUnif]
    linarith

theorem rawSample_isSome (kind : TexturedDotsDistribution) (rng : Rng)
    (lo hi : ℚ) (h : lo ≤ hi) : (rawSample kind rng lo hi).isSome := by
  cases kind with
  | Uniform => simp [rawSample]
  | Normal =>
    have hsd : ¬ ((hi - lo) / 2 / 3 < 0) := by
      have hnn : (0:ℚ) ≤ (hi - lo) / 2 / 3 :=
        div_nonneg (div_nonneg (by linarith) (by norm_num)) (by norm_num)
      linarith
    simp [rawSample, Normal.new, hsd]
  | Exponential =>
    have h1 : ¬ ((1:ℚ) ≤ 0) := by norm_num
    simp [rawSample, Exp.new, h1]
  | ReverseExponential =>
    have h1 : ¬ ((1:ℚ) ≤ 0) := by norm_num
    simp [rawSample, Exp.new, h1]

theorem rawSample_streams (kind : TexturedDotsDistribution) (rng : Rng)
    (lo hi : ℚ) (s : ℚ × Rng) (hEq : rawSample kind rng lo hi = some s) :
    s.2.unif = rng.unif ∧ s.2.expo = rng.expo := by
  cases kind with
  | Uniform =>
    simp only [rawSample] at hEq
    obtain rfl := Option.some_injective _ hEq.symm
    exact ⟨rfl, rfl⟩
  | Normal =>
    simp only [rawSample, Normal.new] at hEq
    split_ifs at hEq
    obtain rfl := Option.some_injective _ hEq.symm
    exact ⟨rfl, rfl⟩
  | Exponential =>
    have h1 : ¬ ((1:ℚ) ≤ 0) := by norm_num
    simp only [rawSample, Exp.new, if_neg h1] at hEq
    obtain rfl := Option.some_injective _ hEq.symm
    exact ⟨rfl, rfl⟩
  | ReverseExponential =>
    have h1 : ¬ ((1:ℚ) ≤ 0) := by norm_num
    simp only [rawSample, Exp.new, if_neg h1] at hEq
    obtain rfl := Option.some_injective _ hEq.symm
    exact ⟨rfl, rfl⟩

theorem rawSample_wf {kind : TexturedDotsDistribution} {rng : Rng}
    {lo hi : ℚ} {s : ℚ × Rng} (hr : rng.Wf)
    (hEq : rawSample kind rng lo hi = some s) : s.2.Wf := by
  obtain ⟨hu, he⟩ := rawSample_streams kind rng lo hi s hEq
  exact ⟨hu ▸ hr.1, he ▸ hr.2⟩

theorem sample_for_isSome (kind : TexturedDotsDistribution) (rng : Rng)
    (lo hi : ℚ) (h : lo ≤ hi) :
    (sample_for_range_symmetrical_clipped kind rng lo hi).isSome := by
  obtain ⟨s, hs⟩ :=
    Option.isSome_iff_exists.mp (rawSample_isSome kind rng lo hi h)
  simp only [sample_for_range_symmetrical_clipped, hs]
  split <;> simp

theorem roundRust_nonneg {x : ℚ} (h : 0 ≤ x) : 0 ≤ roundRust x := by
  simp only [roundRust, if_pos h]
  have : (0:ℚ) ≤ x + 1/2 := by linarith
  exact Int.floor_nonneg.mpr this

theorem roundRust_nonpos {x : ℚ} (h : x ≤ 0) : roundRust x ≤ 0 := by
  by_cases h0 : 0 ≤ x
  · have hx : x = 0 := le_antisymm h h0
    subst hx
    simp only [roundRust, if_pos le_rfl]
    exact le_of_eq (Int.floor_eq_zero_iff.mpr
      (Set.mem_Ico.mpr ⟨by norm_num, by norm_num⟩))
  · simp only [roundRust, if_neg h0]
    push_neg at h0
    have : x - 1/2 ≤ 0 := by linarith
    calc ⌈x - 1/2⌉ ≤ ⌈(0:ℚ)⌉ := Int.ceil_le_ceil this
    _ = 0 := by simp

theorem sample_for_streams (kind : TexturedDotsDistribution) (rng : Rng)
    (lo hi : ℚ) (p : ℚ × Rng)
    (hEq : sample_for_range_symmetrical_clipped kind rng lo hi = some p) :
    p.2.unif = rng.unif ∧ p.2.expo = rng.expo := by
  cases hraw : rawSample kind rng lo hi with
  | none =>
    simp only [sample_for_range_symmetrical_clipped, hraw] at hEq
    exact Option.noConfusion hEq
  | some s =>
    obtain ⟨hu, he⟩ := rawSample_streams kind rng lo hi s hraw
    simp only [sample_for_range_symmetrical_clipped, hraw] at hEq
    split_ifs at hEq
    · obtain rfl := Option.some_injective _ hEq.symm
      exact ⟨hu, he⟩
    · obtain rfl := Option.some_injective _ hEq.symm
      simp only [uniformSample, Rng.nextUnif, Rng.advance]
      exact ⟨hu, he⟩

theorem composeDotStep_isSome (env : Env) (rect : Rect) (vec : ℚ × ℚ)
    (range_x range_y range_rot range_rx range_ry : ℚ × ℚ)
    (options : TexturedOptions) (rng : Rng) (h : range_y.1 ≤ range_y.2) :
    (composeDotStep env rect vec range_x range_y range_rot range_rx range_ry
      options rng).isSome := by
  obtain ⟨p, hp⟩ := Option.isSome_iff_exists.mp
    (sample_for_isSome options.distribution
      (uniformSample range_x.1 range_x.2 rng).2 range_y.1 range_y.2 h)
  simp only [composeDotStep, hp, Option.isSome_some]

theorem composeDots_length (env : Env) (rect : Rect) (vec : ℚ × ℚ)
    (range_x range_y range_rot range_rx range_ry : ℚ × ℚ)
    (options : TexturedOptions) (h : range_y.1 ≤ range_y.2) :
    ∀ (n : Nat) (rng : Rng), ∃ ds,
      composeDots env rect vec range_x range_y range_rot range_rx range_ry
        options n rng = some ds ∧ ds.length = n := by
  intro n
  induction n with
  | zero => exact fun rng => ⟨[], rfl, rfl⟩
  | succ n ih =>
    intro rng
    obtain ⟨dr, hdr⟩ := Option.isSome_iff_exists.mp
      (composeDotStep_isSome env rect vec range_x range_y range_rot range_rx
        range_ry options rng h)
    obtain ⟨ds, hds, hlen⟩ := ih dr.2
    refine ⟨dr.1 :: ds, ?_, by simp [hlen]⟩
    simp only [composeDots, hdr, hds]

theorem composeDots_fill (env : Env) (rect : Rect) (vec : ℚ × ℚ)
    (range_x range_y range_rot range_rx range_ry : ℚ × ℚ)
    (options : TexturedOptions) (hc : options.stroke_color = none) :
    ∀ (n : Nat) (rng : Rng) (ds : List Dot),
      composeDots env rect vec range_x range_y range_rot range_rx range_ry
        options n rng = some ds → ∀ d ∈ ds, d.fill = "" := by
  intro n
  induction n with
  | zero =>
    intro rng ds hds
    simp only [composeDots] at hds
    obtain rfl := Option.some_injective _ hds.symm
    intro d hd
    exact absurd hd (List.not_mem_nil d)
  | succ n ih =>
    intro rng ds hds
    cases hstep : composeDotStep env rect vec range_x range_y range_rot
        range_rx range_ry options rng with
    | none =>
      simp only [composeDots, hstep] at hds
      exact Option.noConfusion hds
    | some dr =>
      cases hrest : composeDots env rect vec range_x range_y range_rot
          range_rx range_ry options n dr.2 with
      | none =>
        simp only [composeDots, hstep, hrest] at hds
        exact Option.noConfusion hds
      | some ds' =>
        simp only [composeDots, hstep, hrest] at hds
        obtain rfl := Option.some_injective _ hds.symm
        intro d hd
        rcases List.mem_cons.mp hd with hd | hd
        · subst hd
          cases hy : sample_for_range_symmetrical_clipped options.distribution
              (uniformSample range_x.1 range_x.2 rng).2 range_y.1
              range_y.2 with
          | none =>
            simp only [composeDotStep, hy] at hstep
            exact Option.noConfusion hstep
          | some py =>
            simp only [composeDotStep, hy] at hstep
            obtain h' := Option.some_injective _ hstep
            rw [← h']
            simp [hc]
        · exact ih dr.2 ds' hrest d hd

theorem roundRust_zero : roundRust 0 = 0 := by
  simp only [roundRust, if_pos le_rfl]
  exact Int.floor_eq_zero_iff.mpr (Set.mem_Ico.mpr ⟨by norm_num, by norm_num⟩)

theorem compose_line_eval (env : Env) (seedFn : Nat → Rng) (entropy : Rng)
    (line : Line) (width : ℚ) (options : TexturedOptions) :
    compose_line env seedFn entropy line width options =
      composeDots env (line.line_w_width_to_rect env width)
        (line.«end».1 - line.start.1, line.«end».2 - line.start.2)
        (-(env.lenFn line / 2), env.lenFn line / 2)
        (-(width / 2), width / 2)
        (-env.pi8, env.pi8)
        (options.radii.1 * (8/10), options.radii.1 * (125/100))
        (options.radii.2 * (8/10), options.radii.2 * (125/100))
        options
        (roundRust (texturedArea env line width * (1/10) *
          options.density)).toNat
        (new_rng_default_pcg64 seedFn entropy options.seed) := rfl

theorem compose_line_empty (env : Env) (seedFn : Nat → Rng) (entropy : Rng)
    (line : Line) (width : ℚ) (options : TexturedOptions)
    (h : roundRust (texturedArea env line width * (1/10) *
      options.density) ≤ 0) :
    compose_line env seedFn entropy line width options = some [] := by
  rw [compose_line_eval, Int.toNat_of_nonpos h]
  rfl

theorem compose_line_length (env : Env) (seedFn : Nat → Rng) (entropy : Rng)
    (line : Line) (width : ℚ) (options : TexturedOptions) (hw : 0 ≤ width) :
    ∃ ds, compose_line env seedFn entropy line width options = some ds ∧
      ds.length = (roundRust (texturedArea env line width * (1/10) *
        options.density)).toNat := by
  rw [compose_line_eval]
  exact composeDots_length env (line.line_w_width_to_rect env width) _ _ _ _
    _ _ options (by simp only; linarith) _ _

/-! ## Claims -/

/-- Claim C1: for a fixed seed `s` (`options.seed = Some(s)`) and fixed line,
width and options, two invocations of `compose_line` produce identical
output — the entropy source of the call is ignored, so the dot count and the
ordered sequence of centers, radii and rotations agree. -/
theorem claim_C1 (env : Env) (seedFn : Nat → Rng) (e1 e2 : Rng) (line : Line)
    (width : ℚ) (options : TexturedOptions) (s : Nat)
    (h : options.seed = some s) :
    compose_line env seedFn e1 line width options =
      compose_line env seedFn e2 line width options := by
  simp only [compose_line, new_rng_default_pcg64, h]

/-- Claim C2: for every distribution kind and every range `[lo, hi)` with
`lo < hi`, `sample_for_range_symmetrical_clipped` returns a value inside
`[lo, hi)`; the uniform fallback is itself always in range (so it never
needs a further fallback); and an out-of-range initial draw is replaced by
exactly one uniform redraw over the same range. -/
theorem claim_C2 (kind : TexturedDotsDistribution) (rng : Rng) (lo hi : ℚ)
    (hWf : rng.Wf) (h : lo < hi) :
    (∀ v rng', sample_for_range_symmetrical_clipped kind rng lo hi =
        some (v, rng') → lo ≤ v ∧ v < hi) ∧
    (∀ r : Rng, r.Wf →
      lo ≤ (uniformSample lo hi r).1 ∧ (uniformSample lo hi r).1 < hi) ∧
    (∀ s rng1, rawSample kind rng lo hi = some (s, rng1) →
      ¬ (lo ≤ s ∧ s < hi) →
      sample_for_range_symmetrical_clipped kind rng lo hi =
        some (uniformSample lo hi rng1)) := by
  refine ⟨?_, fun r hr => uniformSample_mem lo hi r hr h, ?_⟩
  · intro v rng' hEq
    cases hraw : rawSample kind rng lo hi with
    | none =>
      simp only [sample_for_range_symmetrical_clipped, hraw] at hEq
      exact Option.noConfusion hEq
    | some s =>
      have hwf1 : s.2.Wf := rawSample_wf hWf hraw
      simp only [sample_for_range_symmetrical_clipped, hraw] at hEq
      split_ifs at hEq with hin
      · obtain h' := Option.some_injective _ hEq
        obtain rfl : s.1 = v := congrArg Prod.fst h'
        exact hin
      · obtain h' := Option.some_injective _ hEq
        obtain rfl : (uniformSample lo hi s.2).1 = v := congrArg Prod.fst h'
        exact uniformSample_mem lo hi s.2 hwf1 h
  · intro s rng1 hraw hout
    simp only [sample_for_range_symmetrical_clipped, hraw, if_neg hout]

/-- Claim C3: the number of emitted ellipse primitives equals
`round(area * 0.1 * density)` with
`area = 4 * half_extent_x * half_extent_y = 4 * (len/2) * (width/2)`, under
the documented preconditions (nonnegative length, width, density), and the
count does not depend on the distribution kind, the seed, or the entropy
source. -/
theorem claim_C3 (env : Env) (seedFn : Nat → Rng) (entropy : Rng)
    (line : Line) (width : ℚ) (options : TexturedOptions)
    (hlen : 0 ≤ env.lenFn line) (hw : 0 ≤ width)
    (hd : 0 ≤ options.density) :
    ∃ ds, compose_line env seedFn entropy line width options = some ds ∧
      (ds.length : ℤ) = roundRust (4 * (width / 2) * (env.lenFn line / 2) *
        (1/10) * options.density) ∧
      ∀ (kind : TexturedDotsDistribution) (s : Option Nat) (entropy' : Rng),
        ∃ ds', compose_line env seedFn entropy' line width
            { options with distribution := kind, seed := s } = some ds' ∧
          ds'.length = ds.length := by
  have harea : texturedArea env line width =
      4 * (env.lenFn line / 2) * (width / 2) := rfl
  have hnn : 0 ≤ texturedArea env line width * (1/10) * options.density := by
    rw [harea]
    have h1 : 0 ≤ 4 * (env.lenFn line / 2) * (width / 2) := by positivity
    positivity
  obtain ⟨ds, hds, hlen'⟩ :=
    compose_line_length env seedFn entropy line width options hw
  refine ⟨ds, hds, ?_, ?_⟩
  · rw [hlen', Int.toNat_of_nonneg (roundRust_nonneg hnn)]
    congr 1
    rw [harea]
    ring
  · intro kind s entropy'
    obtain ⟨ds', hds', hlen''⟩ := compose_line_length env seedFn entropy'
      line width { options with distribution := kind, seed := s } hw
    exact ⟨ds', hds', by rw [hlen'', hlen']⟩

/-- Claim C4: when the computed dot count `round(area * 0.1 * density)` is
nonpositive — in particular whenever `options.density = 0` — `compose_line`
returns an empty group: a valid `some []` result, not a panic. -/
theorem claim_C4 (env : Env) (seedFn : Nat → Rng) (entropy : Rng)
    (line : Line) (width : ℚ) (options : TexturedOptions) :
    (roundRust (texturedArea env line width * (1/10) *
        options.density) ≤ 0 →
      compose_line env seedFn entropy line width options = some []) ∧
    (options.density = 0 →
      compose_line env seedFn entropy line width options = some []) := by
  constructor
  · exact compose_line_empty env seedFn entropy line width options
  · intro hd
    apply compose_line_empty
    rw [hd, mul_zero, roundRust_zero]

/-- Claim C5: the loop body of `compose_line` samples the local x coordinate
with the Uniform rule over `range_x` — for every option bundle, so the
distribution selector does not affect the x axis — and samples the local y
coordinate with the configured distribution kind; the dot's center is the
envelope transform of that pair.  Moreover the x draw follows the uniform
formula over the head of the stream and stays in `[range_x.1, range_x.2)`
for a well-formed generator. -/
theorem claim_C5 (env : Env) (rect : Rect) (vec : ℚ × ℚ)
    (range_x range_y range_rot range_rx range_ry : ℚ × ℚ)
    (options : TexturedOptions) (rng : Rng) :
    (composeDotStep env rect vec range_x range_y range_rot range_rx range_ry
        options rng =
      (sample_for_range_symmetrical_clipped options.distribution
          (uniformSample range_x.1 range_x.2 rng).2 range_y.1
          range_y.2).map
        (fun py =>
          ({ cx := (rect.transform
                ((uniformSample range_x.1 range_x.2 rng).1, py.1)).1,
             cy := (rect.transform
                ((uniformSample range_x.1 range_x.2 rng).1, py.1)).2,
             rot := env.angleFn vec +
                (uniformSample range_rot.1 range_rot.2 py.2).1,
             rx := (uniformSample range_rx.1 range_rx.2
                (uniformSample range_rot.1 range_rot.2 py.2).2).1,
             ry := (uniformSample range_ry.1 range_ry.2
                (uniformSample range_rx.1 range_rx.2
                  (uniformSample range_rot.1 range_rot.2 py.2).2).2).1,
             fill := match options.stroke_color with
               | none => ""
               | some color => env.to_css_color color },
           (uniformSample range_ry.1 range_ry.2
              (uniformSample range_rx.1 range_rx.2
                (uniformSample range_rot.1 range_rot.2 py.2).2).2).2))) ∧
    ((uniformSample range_x.1 range_x.2 rng).1 =
      range_x.1 + (range_x.2 - range_x.1) * rng.unif rng.pos) ∧
    (rng.Wf → range_x.1 < range_x.2 →
      range_x.1 ≤ (uniformSample range_x.1 range_x.2 rng).1 ∧
        (uniformSample range_x.1 range_x.2 rng).1 < range_x.2) := by
  refine ⟨?_, rfl, fun hWf hlt => uniformSample_mem _ _ rng hWf hlt⟩
  cases hy : sample_for_range_symmetrical_clipped options.distribution
      (uniformSample range_x.1 range_x.2 rng).2 range_y.1 range_y.2 with
  | none => simp only [composeDotStep, hy, Option.map_none']
  | some py => simp only [composeDotStep, hy, Option.map_some']

/-- Claim C6: for `ReverseExponential`, the raw sample anchors at `lo` or at
`hi` according to the 50/50 boolean draw, adds a unit-rate exponential
magnitude scaled by `(hi - lo) / 4` with the inward-pointing sign (positive
at `lo`, negative at `hi`), and matches the spec-side `revExpSpec` formula;
the inward direction means the anchored-at-`lo` sample never falls below
`lo` and the anchored-at-`hi` sample never rises above `hi`. -/
theorem claim_C6 (lo hi : ℚ) (rng : Rng) :
    (rawSample .ReverseExponential rng lo hi =
      some (revExpSpec lo hi (rng.coin rng.pos) (rng.expo (rng.pos + 1)),
        rng.advance.advance)) ∧
    (∀ (b : Bool) (e : ℚ), 0 ≤ e → lo ≤ hi →
      ((b = true → lo ≤ revExpSpec lo hi b e) ∧
       (b = false → revExpSpec lo hi b e ≤ hi))) := by
  constructor
  · have h1 : ¬ ((1:ℚ) ≤ 0) := by norm_num
    cases hcoin : rng.coin rng.pos with
    | true =>
      simp only [rawSample, Exp.new, if_neg h1, expSample, Rng.nextCoin,
        Rng.nextExp, Rng.advance, hcoin, if_pos, revExpSpec]
      norm_num
    | false =>
      simp only [rawSample, Exp.new, if_neg h1, expSample, Rng.nextCoin,
        Rng.nextExp, Rng.advance, hcoin, revExpSpec]
      norm_num
      ring
  · intro b e he hle
    have hm : 0 ≤ ((hi - lo) / 4) * e :=
      mul_nonneg (div_nonneg (by linarith) (by norm_num)) he
    cases b with
    | true =>
      refine ⟨fun _ => ?_, fun hfalse => Bool.noConfusion hfalse⟩
      simp only [revExpSpec, if_pos]
      linarith
    | false =>
      refine ⟨fun htrue => Bool.noConfusion htrue, fun _ => ?_⟩
      simp only [revExpSpec, if_neg Bool.false_ne_true]
      linarith

/-- Claim C7: when `options.stroke_color` is `None`, every emitted ellipse
primitive carries the empty fill string, never a default opaque color. -/
theorem claim_C7 (env : Env) (seedFn : Nat → Rng) (entropy : Rng)
    (line : Line) (width : ℚ) (options : TexturedOptions)
    (h : options.stroke_color = none) :
    ∀ ds, compose_line env seedFn entropy line width options = some ds →
      ∀ d ∈ ds, d.fill = "" := by
  intro ds hds
  rw [compose_line_eval] at hds
  exact composeDots_fill env _ _ _ _ _ _ _ options h _ _ ds hds

/-- Claim C8: `TexturedOptions::default()` yields exactly seed `None`, width
`1.0`, opaque black stroke color, density `5.0`, radii `(2.0, 0.3)` and the
`Normal` distribution, which is the enum's own default. -/
theorem claim_C8 :
    TexturedOptions.default =
      { seed := none, width := 1,
        stroke_color := some { r := 0, g := 0, b := 0, a := 1 },
        density := 5, radii := (2, 3/10),
        distribution := TexturedDotsDistribution.Normal } ∧
    TexturedDotsDistribution.default = TexturedDotsDistribution.Normal :=
  ⟨rfl, rfl⟩

/-- Claim C9: under the precondition `lo < hi`, the `unwrap` calls inside
`sample_for_range_symmetrical_clipped` never panic: `Normal::new` succeeds
because the standard deviation `(hi - lo) / 2 / 3` is nonnegative,
`Exp::new(1.0)` succeeds because the rate is positive, and the whole sampler
returns a value for every kind and generator state. -/
theorem claim_C9 (lo hi : ℚ) (h : lo < hi) :
    (Normal.new ((hi + lo) / 2) ((hi - lo) / 2 / 3)).isSome = true ∧
    (Exp.new 1).isSome = true ∧
    ∀ (kind : TexturedDotsDistribution) (rng : Rng),
      (sample_for_range_symmetrical_clipped kind rng lo hi).isSome = true := by
  refine ⟨?_, ?_, fun kind rng => sample_for_isSome kind rng lo hi h.le⟩
  · have hsd : ¬ ((hi - lo) / 2 / 3 < 0) := by
      have hnn : (0:ℚ) ≤ (hi - lo) / 2 / 3 :=
        div_nonneg (div_nonneg (by linarith) (by norm_num)) (by norm_num)
      linarith
    simp [Normal.new, hsd]
  · have h1 : ¬ ((1:ℚ) ≤ 0) := by norm_num
    simp [Exp.new, h1]

/-- Claim C10: a negative density (a documented precondition violation)
still yields an empty group rather than a failure: the rounded dot count is
nonpositive, so the generation loop runs zero times. -/
theorem claim_C10 (env : Env) (seedFn : Nat → Rng) (entropy : Rng)
    (line : Line) (width : ℚ) (options : TexturedOptions)
    (hlen : 0 ≤ env.lenFn line) (hw : 0 ≤ width)
    (hd : options.density < 0) :
    compose_line env seedFn entropy line width options = some [] := by
  apply compose_line_empty
  apply roundRust_nonpos
  have harea : texturedArea env line width =
      4 * (env.lenFn line / 2) * (width / 2) := rfl
  have hnn : 0 ≤ texturedArea env line width * (1/10) := by
    rw [harea]; positivity
  exact mul_nonpos_of_nonneg_of_nonpos hnn hd.le

/-! ## Witnesses -/

theorem claim_C1_witness :
    optsSeeded.seed = some 42 ∧
    compose_line envW seedFnW rngW lineW 2 optsSeeded =
      compose_line envW seedFnW rngW2 lineW 2 optsSeeded :=
  ⟨rfl, claim_C1 envW seedFnW rngW rngW2 lineW 2 optsSeeded 42 rfl⟩

theorem claim_C2_witness :
    rngW.Wf ∧ ((-1 : ℚ) < 1) ∧
    (∀ v rng', sample_for_range_symmetrical_clipped
        TexturedDotsDistribution.Normal rngW (-1) 1 = some (v, rng') →
      -1 ≤ v ∧ v < 1) :=
  ⟨rngW_wf, by norm_num,
   (claim_C2 TexturedDotsDistribution.Normal rngW (-1) 1 rngW_wf
     (by norm_num)).1⟩

theorem claim_C3_witness :
    (0 : ℚ) ≤ envW.lenFn lineW ∧ (0 : ℚ) ≤ 2 ∧
    (0 : ℚ) ≤ TexturedOptions.default.density ∧
    (∃ ds, compose_line envW seedFnW rngW lineW 2 TexturedOptions.default =
        some ds ∧
      (ds.length : ℤ) = roundRust (4 * (2 / 2) * (envW.lenFn lineW / 2) *
        (1/10) * TexturedOptions.default.density) ∧
      ∀ (kind : TexturedDotsDistribution) (s : Option Nat) (entropy' : Rng),
        ∃ ds', compose_line envW seedFnW entropy' lineW 2
            { TexturedOptions.default with distribution := kind, seed := s }
            = some ds' ∧
          ds'.length = ds.length) :=
  ⟨by norm_num [envW], by norm_num,
   by norm_num [TexturedOptions.default, TexturedOptions.DENSITY_DEFAULT],
   claim_C3 envW seedFnW rngW lineW 2 TexturedOptions.default
     (by norm_num [envW]) (by norm_num)
     (by norm_num [TexturedOptions.default,
       TexturedOptions.DENSITY_DEFAULT])⟩

theorem claim_C4_witness :
    optsZeroDen.density = 0 ∧
    compose_line envW seedFnW rngW lineW 2 optsZeroDen = some [] :=
  ⟨rfl, (claim_C4 envW seedFnW rngW lineW 2 optsZeroDen).2 rfl⟩

theorem claim_C5_witness :
    rngW.Wf ∧ ((-5 : ℚ) < 5) ∧
    ((-5 : ℚ) ≤ (uniformSample (-5) 5 rngW).1 ∧
      (uniformSample (-5) 5 rngW).1 < 5) :=
  ⟨rngW_wf, by norm_num,
   (claim_C5 envW rectW vecW (-5, 5) (-1, 1) (-(2/5), 2/5) (8/5, 5/2)
     (6/25, 3/8) TexturedOptions.default rngW).2.2 rngW_wf (by norm_num)⟩

theorem claim_C6_witness :
    rawSample TexturedDotsDistribution.ReverseExponential rngW 0 4 =
      some (revExpSpec 0 4 (rngW.coin rngW.pos) (rngW.expo (rngW.pos + 1)),
        rngW.advance.advance) ∧
    ((0 : ℚ) ≤ 1) ∧ ((0 : ℚ) ≤ 4) ∧
    ((0 : ℚ) ≤ revExpSpec 0 4 true 1) :=
  ⟨(claim_C6 0 4 rngW).1, by norm_num, by norm_num,
   ((claim_C6 0 4 rngW).2 true 1 (by norm_num) (by norm_num)).1 rfl⟩

theorem claim_C7_witness :
    optsNoColor.stroke_color = none ∧
    (∀ ds, compose_line envW seedFnW rngW lineW 2 optsNoColor = some ds →
      ∀ d ∈ ds, d.fill = "") :=
  ⟨rfl, claim_C7 envW seedFnW rngW lineW 2 optsNoColor rfl⟩

theorem claim_C9_witness :
    ((0 : ℚ) < 4) ∧
    ((Normal.new ((4 + 0) / 2) ((4 - 0) / 2 / 3)).isSome = true ∧
     (Exp.new 1).isSome = true ∧
     ∀ (kind : TexturedDotsDistribution) (rng : Rng),
       (sample_for_range_symmetrical_clipped kind rng 0 4).isSome = true) :=
  ⟨by norm_num, claim_C9 0 4 (by norm_num)⟩

theorem claim_C10_witness :
    (0 : ℚ) ≤ envW.lenFn lineW ∧ (0 : ℚ) ≤ 2 ∧ optsNegDen.density < 0 ∧
    compose_line envW seedFnW rngW lineW 2 optsNegDen = some [] :=
  ⟨by norm_num [envW], by norm_num, by norm_num [optsNegDen],
   claim_C10 envW seedFnW rngW lineW 2 optsNegDen (by norm_num [envW])
     (by norm_num) (by norm_num [optsNegDen])⟩

end Rnote
